import Mathlib

/-!
# Verification of the EmbedAnything embedding pipeline

A shallow embedding of the parts of the EmbedAnything repository that the
frozen claims are about, together with theorems settling the claims.

Two kinds of definitions appear:

* Definitions translated directly from the Python sources in the repository
  (the `PineconeAdapter` in `python/embed_anything/vectordb.py`).
* Definitions whose doc comment starts with `Modelled from the spec:`.
  These model the pipeline driver, embedder dispatch and reranker, which are
  implemented in the native (Rust) extension module of the repository: the Python
  package only re-exports them (`from .embed_anything import *`), so only
  their tests, declarations and callers are visible.  They are modelled
  faithfully from the words of the specification.

Vectors are modelled over `ℚ` (the source uses `f32`; only ordering and
equality of scores matter for the claims, never rounding).
-/

/-! ## Generic list batching

The driver accumulates units in a bounded buffer of capacity `buffer_size`
and flushes it whenever it is full, with a final flush of the remainder
(spec §4.5 step 6).  `toBatches n l` is the resulting list of flushed
batches: consecutive groups of `max 1 n` elements of `l`.  The structural
fuel (initialised to `l.length`, enough since every step consumes at least
one element) keeps the definition kernel-reducible. -/

def toBatchesAux (n : Nat) : Nat → List α → List (List α)
  | _, [] => []
  | 0, a :: rest => [a :: rest]
  | fuel+1, a :: rest =>
      (a :: rest).take (max 1 n) :: toBatchesAux n fuel ((a :: rest).drop (max 1 n))

/-- Split a list into consecutive batches of `max 1 n` elements. -/
def toBatches (n : Nat) (l : List α) : List (List α) :=
  toBatchesAux n l.length l

theorem toBatchesAux_flatten (n : Nat) :
    ∀ (fuel : Nat) (l : List α), (toBatchesAux n fuel l).flatten = l := by
  intro fuel
  induction fuel with
  | zero =>
    intro l
    cases l with
    | nil => rfl
    | cons a rest => simp [toBatchesAux]
  | succ fuel ih =>
    intro l
    cases l with
    | nil => rfl
    | cons a rest =>
      simp only [toBatchesAux, List.flatten_cons, ih]
      exact List.take_append_drop _ _

/-- Flattening the batches recovers the original unit list: the buffered
sink path delivers every unit exactly once, in order. -/
theorem toBatches_flatten (n : Nat) (l : List α) : (toBatches n l).flatten = l :=
  toBatchesAux_flatten n l.length l

/-! ## Data model

`EmbedData` is the atomic output (spec §3, `EmbedUnit`): a dense vector, the
chunk text and a string-to-string metadata mapping, modelled as an
association list. -/

/-- Modelled from the spec: the `EmbedUnit`/`EmbedData` record produced by the
native module — dense `embedding`, chunk `text`, string metadata map. -/
structure EmbedData where
  embedding : List ℚ
  text : String
  metadata : List (String × String)
deriving DecidableEq

/-- Modelled from the spec: a loaded dense embedder handle.  The model
forward pass itself is an external collaborator (spec §1), abstracted as
`encode`; §8.2 requires every produced vector to have length `dim`, which is
the well-formedness hypothesis `∀ s, (E.encode s).length = E.dim` used by
the dimension-stability theorems. -/
structure EmbeddingModel where
  dim : Nat
  encode : String → List ℚ

/-- Modelled from the spec: `TextEmbedConfig` recognized options (§6) that
the modelled driver consumes. -/
structure TextEmbedConfig where
  chunk_size : Nat := 1000
  batch_size : Nat := 32
  buffer_size : Nat := 100

/-- Modelled from the spec: a file visible to the driver.  `path` is the
absolute path the driver stores under the `file_name` metadata key. -/
structure FileRec where
  path : String
  contents : String
  created : String
  modified : String
deriving DecidableEq

/-- Modelled from the spec: the error taxonomy of §7 restricted to the
source-reader failure modes of §4.1 (`FileNotFound`, `UnsupportedExtension`,
`DecodeError{kind, path}`). -/
inductive EmbedError where
  | FileNotFound : String → EmbedError
  | UnsupportedExtension : String → EmbedError
  | DecodeError : String → String → EmbedError
deriving DecidableEq

/-! ## Source readers and chunking -/

/-- Modelled from the spec: readers are selected by file extension,
case-insensitively (§4.1).  The lowercased text after the final `.`;
empty when the path has no dot. -/
def extensionOf (p : String) : String :=
  if p.data.contains '.' then
    ⟨((p.data.reverse.takeWhile (fun c => c != '.')).reverse).map Char.toLower⟩
  else ""

/-- Modelled from the spec: the text-document extensions for which §4.1
requires a reader (PDF, plain text, Markdown, HTML). -/
def supportedExtensions : List String := ["pdf", "txt", "md", "html"]

/-- Modelled from the spec: path lookup in the view the driver has of the file
system, used to raise `FileNotFound`. -/
def findFile (fs : List FileRec) (path : String) : Option FileRec :=
  fs.find? (fun f => f.path == path)

/-- Modelled from the spec: size-bounded chunking (§4.2): the contents are
split into chunks of at most `chunk_size` characters; a readable-but-empty
file produces zero segments and hence zero chunks (§4.1). -/
def chunkText (chunk_size : Nat) (s : String) : List String :=
  (toBatches chunk_size s.data).map (fun cs => ⟨cs⟩)

/-! ## The pipeline driver -/

/-- Modelled from the spec: post-processing step 5 of the driver (§4.5):
each chunk is embedded and zipped with its metadata; `chunk_index` is
assigned monotonically starting at `i`.  Metadata carries the required keys
`file_name` (absolute path), `created` and `modified` (§3). -/
def unitsFrom (E : EmbeddingModel) (f : FileRec) : Nat → List String → List EmbedData
  | _, [] => []
  | i, c :: cs =>
      { embedding := E.encode c, text := c,
        metadata := [("file_name", f.path), ("created", f.created),
                     ("modified", f.modified), ("chunk_index", toString i)] }
        :: unitsFrom E f (i+1) cs

/-- Modelled from the spec: the complete list of units the pipeline derives
from one file (chunk, embed, attach metadata). -/
def fileUnits (E : EmbeddingModel) (cfg : TextEmbedConfig) (f : FileRec) : List EmbedData :=
  unitsFrom E f 0 (chunkText cfg.chunk_size f.contents)

/-- Modelled from the spec: `embed_query(texts, embedder)` embeds each query
string as-is — one `EmbedData` per input text, no chunking, metadata empty
(§6, scenario S4). -/
def embedQuery (E : EmbeddingModel) (texts : List String) : List EmbedData :=
  texts.map (fun t => { embedding := E.encode t, text := t, metadata := [] })

/-- Modelled from the spec: `embed_file(path, embedder, config?, sink?)`
(§4.5, §6).  Fails with `FileNotFound` when the path does not resolve and
with `UnsupportedExtension` when no reader supports the extension.  With a
sink (`useSink = true`) all units are routed to the sink in buffered batches
and the in-memory result is `none`; without a sink the complete unit list is
returned and no sink batch is produced.  The result pairs the in-memory
return value with the list of `upsert` batches handed to the sink. -/
def embedFile (fs : List FileRec) (E : EmbeddingModel) (cfg : TextEmbedConfig)
    (useSink : Bool) (path : String) :
    Except EmbedError (Option (List EmbedData) × List (List EmbedData)) :=
  match findFile fs path with
  | none => .error (.FileNotFound path)
  | some f =>
    if extensionOf path ∈ supportedExtensions then
      let units := fileUnits E cfg f
      if useSink then .ok (none, toBatches cfg.buffer_size units)
      else .ok (some units, [])
    else .error (.UnsupportedExtension path)

/-- Modelled from the spec: the files of `fs` that lie in directory `dir`
and have a supported extension; unsupported files in a directory are
skipped, not errors (scenario S3). -/
def dirFiles (fs : List FileRec) (dir : String) : List FileRec :=
  fs.filter (fun f =>
    (dir ++ "/").data.isPrefixOf f.path.data &&
    supportedExtensions.contains (extensionOf f.path))

/-- Modelled from the spec: all units produced from the files of a
directory, per-file in order. -/
def dirUnits (fs : List FileRec) (E : EmbeddingModel) (cfg : TextEmbedConfig)
    (dir : String) : List EmbedData :=
  (dirFiles fs dir).flatMap (fun f => fileUnits E cfg f)

/-- Modelled from the spec: `embed_directory(path, embedder, config?, sink?)`
(§4.5, §6): directory expansion followed by the same sink routing as
`embed_file`; an empty directory yields an empty result, no error
(scenario S2). -/
def embedDirectory (fs : List FileRec) (E : EmbeddingModel) (cfg : TextEmbedConfig)
    (useSink : Bool) (dir : String) :
    Except EmbedError (Option (List EmbedData) × List (List EmbedData)) :=
  let units := dirUnits fs E cfg dir
  if useSink then .ok (none, toBatches cfg.buffer_size units)
  else .ok (some units, [])

/-! ## The reranker (spec §4.6)

For each query, rerank sorts the documents by descending score and returns the
`top_k` with 1-based ranks; ties are broken by original input order.  The
cross-encoder score itself is an external collaborator, abstracted as the
`score` field.  Sorting is modelled by `List.insertionSort` (stable) over
documents decorated with their input position, under the total order
"strictly higher score, or equal score and earlier input position". -/

/-- Modelled from the spec: one entry of a reranker result — `rank` is
1-based, `document` the candidate text, `relevance_score` its score. -/
structure DocumentRank where
  document : String
  relevance_score : ℚ
  rank : Nat
deriving DecidableEq

/-- Modelled from the spec: the per-query result of `rerank`. -/
structure RerankerResult where
  query : String
  documents : List DocumentRank
deriving DecidableEq

/-- Modelled from the spec: a loaded cross-encoder reranker; `score q d` is
the relevance score the classification head assigns the pair `(q, d)`. -/
structure Reranker where
  score : String → String → ℚ

/-- Modelled from the spec: each document decorated with its input position
and score: `(position, document, score)`. -/
def scoredDocs (s : String → ℚ) : Nat → List String → List (Nat × String × ℚ)
  | _, [] => []
  | i, d :: ds => (i, d, s d) :: scoredDocs s (i+1) ds

/-- Modelled from the spec: the sort order of `rerank` — higher score first,
ties by earlier input position. -/
def rankRel (a b : Nat × String × ℚ) : Prop :=
  b.2.2 < a.2.2 ∨ (a.2.2 = b.2.2 ∧ a.1 ≤ b.1)

instance : DecidableRel rankRel := fun a b => by
  unfold rankRel; infer_instance

instance : IsTotal (Nat × String × ℚ) rankRel := by
  constructor
  intro a b
  rcases lt_trichotomy a.2.2 b.2.2 with h | h | h
  · exact Or.inr (Or.inl h)
  · rcases Nat.le_total a.1 b.1 with hn | hn
    · exact Or.inl (Or.inr ⟨h, hn⟩)
    · exact Or.inr (Or.inr ⟨h.symm, hn⟩)
  · exact Or.inl (Or.inl h)

instance : IsTrans (Nat × String × ℚ) rankRel := by
  constructor
  intro a b c hab hbc
  rcases hab with h1 | ⟨h1, h1'⟩ <;> rcases hbc with h2 | ⟨h2, h2'⟩
  · exact Or.inl (lt_trans h2 h1)
  · exact Or.inl (h2 ▸ h1)
  · exact Or.inl (h1 ▸ h2)
  · exact Or.inr ⟨h1.trans h2, h1'.trans h2'⟩

/-- Modelled from the spec: the decorated top-`top_k` documents of one
query, in output order: sort by descending score (stable) and take the
prefix. -/
def rerankPerm (s : String → ℚ) (documents : List String) (top_k : Nat) :
    List (Nat × String × ℚ) :=
  (List.insertionSort rankRel (scoredDocs s 0 documents)).take top_k

/-- Modelled from the spec: assign 1-based ranks in list order, starting
at `r`. -/
def assignRanks : Nat → List (Nat × String × ℚ) → List DocumentRank
  | _, [] => []
  | r, x :: xs =>
      { document := x.2.1, relevance_score := x.2.2, rank := r } :: assignRanks (r+1) xs

/-- Modelled from the spec: the ranked document list `rerank` returns for a
single query. -/
def rerankOne (s : String → ℚ) (documents : List String) (top_k : Nat) :
    List DocumentRank :=
  assignRanks 1 (rerankPerm s documents top_k)

/-- Modelled from the spec: `rerank(queries, documents, top_k)` — one
`RerankerResult` per query, carrying the query string verbatim. -/
def Reranker.rerank (R : Reranker) (queries documents : List String) (top_k : Nat) :
    List RerankerResult :=
  queries.map (fun q => { query := q, documents := rerankOne (R.score q) documents top_k })

/-- Modelled from the spec: `compute_scores(queries, documents, batch_size)`
— the raw score matrix, one row per query (batching over pairs does not
change the scores). -/
def Reranker.compute_scores (R : Reranker) (queries documents : List String)
    (batch_size : Nat) : List (List ℚ) :=
  queries.map (fun q => documents.map (R.score q))

/-! ## The Pinecone adapter

Translated from the Python source `python/embed_anything/vectordb.py`
(class `PineconeAdapter`). -/

/-- One record of the output of `PineconeAdapter.convert`: an id from
`str(uuid.uuid4())`, the embedding under `values`, and a metadata object
holding the unit text and the last path component of its file name. -/
structure PineconeRecord where
  id : String
  values : List ℚ
  meta_text : String
  meta_file : String
deriving DecidableEq

/-- Split a character list at separators, `re.split`-style: `n` separators
yield `n+1` (possibly empty) groups. -/
def splitSep (sep : Char → Bool) : List Char → List (List Char)
  | [] => [[]]
  | c :: cs =>
    match splitSep sep cs with
    | [] => if sep c then [[], []] else [[c]]
    | g :: gs => if sep c then [] :: g :: gs else (c :: g) :: gs

/-- The last component of a path split at slash or backslash characters,
as computed inside `PineconeAdapter.convert` by a regular-expression
split that takes the final group. -/
def lastPathComponent (s : String) : String :=
  ⟨(splitSep (fun c => c == '/' || c == '\\') s.data).getLastD []⟩

/-- The `PineconeAdapter` state: `index_name` is `None` until
`create_index` is called (`__init__` sets `self.index_name = None`);
`remote` logs the upsert calls made on the external Pinecone index, in
order.  The `api_key` is stored but never inspected by the modelled
methods. -/
structure PineconeAdapter where
  api_key : String
  index_name : Option String
  remote : List (String × List PineconeRecord)

/-- Constructor of the adapter (`PineconeAdapter.__init__`): stores the api key and leaves
`index_name = None`; no remote call has been made. -/
def PineconeAdapter.init (api_key : String) : PineconeAdapter :=
  { api_key := api_key, index_name := none, remote := [] }

/-- From `PineconeAdapter.create_index`: records the index name on the adapter
(the remote index creation itself is external and not modelled further). -/
def PineconeAdapter.create_index (a : PineconeAdapter) (dimension : Nat)
    (metric : String) (index_name : String) : PineconeAdapter :=
  { a with index_name := some index_name }

/-- From `PineconeAdapter.convert`: each embedding becomes one record whose `id`
is `str(uuid.uuid4())`.  The random uuid4 draws are modelled as successive
values of the stream `uuids`, starting at generator state `k`; the result is
the record list together with the advanced generator state, so that two
successive invocations in one process consume disjoint parts of the
stream. -/
def PineconeAdapter.convert (uuids : Nat → String) :
    Nat → List EmbedData → List PineconeRecord × Nat
  | k, [] => ([], k)
  | k, e :: es =>
    let rest := PineconeAdapter.convert uuids (k+1) es
    ({ id := uuids k,
       values := e.embedding,
       meta_text := e.text,
       meta_file := lastPathComponent ((e.metadata.lookup "file_name").getD "") }
       :: rest.1,
     rest.2)

/-- From `PineconeAdapter.upsert`: raises
`ValueError("Index must be created before upserting data")` when
`self.index_name` is falsy (`None` or empty — `if not self.index_name`),
without touching the remote store; otherwise performs one remote upsert
call on the named index.  Returns the adapter after the call and the error
message, if any. -/
def PineconeAdapter.upsert (a : PineconeAdapter) (data : List PineconeRecord) :
    PineconeAdapter × Option String :=
  if a.index_name.getD "" = "" then
    (a, some "Index must be created before upserting data")
  else
    ({ a with remote := a.remote ++ [(a.index_name.getD "", data)] }, none)

/-! ## Reranker lemmas -/

theorem scoredDocs_length (s : String → ℚ) :
    ∀ (i : Nat) (ds : List String), (scoredDocs s i ds).length = ds.length := by
  intro i ds
  induction ds generalizing i with
  | nil => rfl
  | cons d ds ih => simp [scoredDocs, ih]

theorem mem_scoredDocs {s : String → ℚ} :
    ∀ {i : Nat} {ds : List String} {x : Nat × String × ℚ}, x ∈ scoredDocs s i ds →
      i ≤ x.1 ∧ ds[x.1 - i]? = some x.2.1 ∧ x.2.2 = s x.2.1 := by
  intro i ds
  induction ds generalizing i with
  | nil => intro x hx; simp [scoredDocs] at hx
  | cons d ds ih =>
    intro x hx
    rcases List.mem_cons.mp hx with rfl | hx
    · exact ⟨Nat.le_refl _, by simp, rfl⟩
    · obtain ⟨h1, h2, h3⟩ := ih hx
      refine ⟨Nat.le_trans (Nat.le_succ i) h1, ?_, h3⟩
      have he : x.1 - i = (x.1 - (i+1)) + 1 := by omega
      rw [he]
      simpa using h2

theorem scoredDocs_pairwise_fst (s : String → ℚ) :
    ∀ (i : Nat) (ds : List String), (scoredDocs s i ds).Pairwise (fun a b => a.1 < b.1) := by
  intro i ds
  induction ds generalizing i with
  | nil => exact List.Pairwise.nil
  | cons d ds ih =>
    refine List.Pairwise.cons ?_ (ih (i+1))
    intro y hy
    have h := (mem_scoredDocs hy).1
    show i < y.1
    omega

theorem assignRanks_length :
    ∀ (r : Nat) (l : List (Nat × String × ℚ)), (assignRanks r l).length = l.length := by
  intro r l
  induction l generalizing r with
  | nil => rfl
  | cons x xs ih => simp [assignRanks, ih]

theorem mem_assignRanks :
    ∀ {r : Nat} {l : List (Nat × String × ℚ)} {u : DocumentRank}, u ∈ assignRanks r l →
      ∃ y ∈ l, u.document = y.2.1 ∧ u.relevance_score = y.2.2 := by
  intro r l
  induction l generalizing r with
  | nil => intro u hu; simp [assignRanks] at hu
  | cons x xs ih =>
    intro u hu
    rcases List.mem_cons.mp hu with rfl | hu
    · exact ⟨x, List.mem_cons_self _ _, rfl, rfl⟩
    · obtain ⟨y, hy, h1, h2⟩ := ih hu
      exact ⟨y, List.mem_cons_of_mem _ hy, h1, h2⟩

theorem assignRanks_map_rank :
    ∀ (r : Nat) (l : List (Nat × String × ℚ)),
      (assignRanks r l).map DocumentRank.rank = List.range' r l.length := by
  intro r l
  induction l generalizing r with
  | nil => rfl
  | cons x xs ih => simp [assignRanks, List.range'_succ, ih]

theorem assignRanks_pairwise {S : ℚ → ℚ → Prop} :
    ∀ (r : Nat) {l : List (Nat × String × ℚ)},
      l.Pairwise (fun a b => S a.2.2 b.2.2) →
      (assignRanks r l).Pairwise (fun u v => S u.relevance_score v.relevance_score) := by
  intro r l
  induction l generalizing r with
  | nil => intro _; exact List.Pairwise.nil
  | cons x xs ih =>
    intro h
    rcases List.pairwise_cons.mp h with ⟨hx, hxs⟩
    refine List.Pairwise.cons ?_ (ih (r+1) hxs)
    intro v hv
    obtain ⟨y, hy, _, hs⟩ := mem_assignRanks hv
    rw [hs]
    exact hx y hy

theorem pairwise_conj {α : Type _} {R S : α → α → Prop} :
    ∀ {l : List α}, l.Pairwise R → l.Pairwise S → l.Pairwise (fun a b => R a b ∧ S a b) := by
  intro l hR hS
  induction l with
  | nil => exact List.Pairwise.nil
  | cons x xs ih =>
    rcases List.pairwise_cons.mp hR with ⟨hR1, hR2⟩
    rcases List.pairwise_cons.mp hS with ⟨hS1, hS2⟩
    exact List.Pairwise.cons (fun y hy => ⟨hR1 y hy, hS1 y hy⟩) (ih hR2 hS2)

theorem rerankPerm_pairwise_rankRel (s : String → ℚ) (documents : List String) (top_k : Nat) :
    (rerankPerm s documents top_k).Pairwise rankRel :=
  List.Pairwise.sublist (List.take_sublist _ _)
    (List.sorted_insertionSort rankRel (scoredDocs s 0 documents))

theorem rerankPerm_pairwise_fst_ne (s : String → ℚ) (documents : List String) (top_k : Nat) :
    (rerankPerm s documents top_k).Pairwise (fun a b => a.1 ≠ b.1) := by
  have h1 : (scoredDocs s 0 documents).Pairwise (fun a b => a.1 ≠ b.1) :=
    (scoredDocs_pairwise_fst s 0 documents).imp (fun h => Nat.ne_of_lt h)
  have hperm := List.perm_insertionSort rankRel (scoredDocs s 0 documents)
  have h2 : (List.insertionSort rankRel (scoredDocs s 0 documents)).Pairwise
      (fun a b => a.1 ≠ b.1) :=
    hperm.symm.pairwise h1 (fun h => Ne.symm h)
  exact List.Pairwise.sublist (List.take_sublist _ _) h2

theorem rerankPerm_ties (s : String → ℚ) (documents : List String) (top_k : Nat) :
    (rerankPerm s documents top_k).Pairwise (fun a b => a.2.2 = b.2.2 → a.1 < b.1) := by
  have h := pairwise_conj (rerankPerm_pairwise_rankRel s documents top_k)
    (rerankPerm_pairwise_fst_ne s documents top_k)
  refine h.imp ?_
  rintro a b ⟨hr, hne⟩ heq
  rcases hr with hlt | ⟨_, hle⟩
  · rw [heq] at hlt
    exact absurd hlt (lt_irrefl _)
  · exact Nat.lt_of_le_of_ne hle hne

theorem mem_rerankPerm {s : String → ℚ} {documents : List String} {top_k : Nat}
    {x : Nat × String × ℚ} (hx : x ∈ rerankPerm s documents top_k) :
    documents[x.1]? = some x.2.1 ∧ x.2.2 = s x.2.1 := by
  have hx1 : x ∈ List.insertionSort rankRel (scoredDocs s 0 documents) :=
    List.mem_of_mem_take hx
  have hx2 : x ∈ scoredDocs s 0 documents :=
    (List.mem_insertionSort rankRel).mp hx1
  obtain ⟨_, h2, h3⟩ := mem_scoredDocs hx2
  simpa using ⟨h2, h3⟩

theorem rerankOne_score_sorted (s : String → ℚ) (documents : List String) (top_k : Nat) :
    (rerankOne s documents top_k).Pairwise
      (fun u v => v.relevance_score ≤ u.relevance_score) := by
  unfold rerankOne
  refine @assignRanks_pairwise (fun a b => b ≤ a) 1 _ ?_
  refine (rerankPerm_pairwise_rankRel s documents top_k).imp ?_
  rintro a b (h | ⟨h, _⟩)
  · exact le_of_lt h
  · exact le_of_eq h.symm

theorem rerankOne_ranks (s : String → ℚ) (documents : List String) (top_k : Nat) :
    (rerankOne s documents top_k).map DocumentRank.rank
      = List.range' 1 (rerankOne s documents top_k).length := by
  unfold rerankOne
  rw [assignRanks_map_rank, assignRanks_length]

theorem rerankOne_length (s : String → ℚ) (documents : List String) (top_k : Nat) :
    (rerankOne s documents top_k).length = min top_k documents.length := by
  unfold rerankOne rerankPerm
  rw [assignRanks_length, List.length_take, List.length_insertionSort, scoredDocs_length]

/-! ## Driver lemmas -/

theorem unitsFrom_metadata {E : EmbeddingModel} {f : FileRec} :
    ∀ (i : Nat) (cs : List String) (u : EmbedData), u ∈ unitsFrom E f i cs →
      u.metadata.lookup "file_name" = some f.path ∧
      u.metadata.lookup "created" = some f.created ∧
      u.metadata.lookup "modified" = some f.modified := by
  intro i cs
  induction cs generalizing i with
  | nil => intro u hu; simp [unitsFrom] at hu
  | cons c cs ih =>
    intro u hu
    rcases List.mem_cons.mp hu with rfl | hu
    · exact ⟨rfl, rfl, rfl⟩
    · exact ih (i+1) u hu

theorem unitsFrom_embedding {E : EmbeddingModel} {f : FileRec} :
    ∀ (i : Nat) (cs : List String) (u : EmbedData), u ∈ unitsFrom E f i cs →
      ∃ c ∈ cs, u.embedding = E.encode c := by
  intro i cs
  induction cs generalizing i with
  | nil => intro u hu; simp [unitsFrom] at hu
  | cons c cs ih =>
    intro u hu
    rcases List.mem_cons.mp hu with rfl | hu
    · exact ⟨c, List.mem_cons_self _ _, rfl⟩
    · obtain ⟨c', hc', h⟩ := ih (i+1) u hu
      exact ⟨c', List.mem_cons_of_mem _ hc', h⟩

theorem embedFile_ok_no_sink {fs : List FileRec} {E : EmbeddingModel}
    {cfg : TextEmbedConfig} {path : String}
    {r : Option (List EmbedData) × List (List EmbedData)}
    (h : embedFile fs E cfg false path = .ok r) :
    ∃ f, findFile fs path = some f ∧ r = (some (fileUnits E cfg f), []) := by
  unfold embedFile at h
  cases hf : findFile fs path with
  | none => rw [hf] at h; cases h
  | some f =>
    rw [hf] at h
    dsimp only at h
    by_cases hext : extensionOf path ∈ supportedExtensions
    · rw [if_pos hext] at h
      simp only [Bool.false_eq_true, if_neg] at h
      cases h
      exact ⟨f, rfl, rfl⟩
    · rw [if_neg hext] at h
      cases h

theorem embedFile_ok_sink {fs : List FileRec} {E : EmbeddingModel}
    {cfg : TextEmbedConfig} {path : String}
    {r : Option (List EmbedData) × List (List EmbedData)}
    (h : embedFile fs E cfg true path = .ok r) :
    ∃ f, findFile fs path = some f ∧
      r = (none, toBatches cfg.buffer_size (fileUnits E cfg f)) := by
  unfold embedFile at h
  cases hf : findFile fs path with
  | none => rw [hf] at h; cases h
  | some f =>
    rw [hf] at h
    dsimp only at h
    by_cases hext : extensionOf path ∈ supportedExtensions
    · rw [if_pos hext] at h
      simp only [if_pos] at h
      cases h
      exact ⟨f, rfl, rfl⟩
    · rw [if_neg hext] at h
      cases h

theorem rerank_get (R : Reranker) (queries documents : List String) (top_k : Nat)
    (i : Nat) (h1 : i < queries.length)
    (h2 : i < (R.rerank queries documents top_k).length) :
    (R.rerank queries documents top_k).get ⟨i, h2⟩
      = { query := queries.get ⟨i, h1⟩,
          documents := rerankOne (R.score (queries.get ⟨i, h1⟩)) documents top_k } := by
  simp [Reranker.rerank, List.get_eq_getElem]

/-! ## Claim C1 -/

/-- The per-query output property of `rerank` asserted by claim C1:
documents sorted by non-increasing relevance score; rank fields exactly
`1, 2, …, k` in list order; tied (equal-score) documents listed in strictly
increasing original input position (`rerankPerm` decorates each returned
document with its input position, and the last conjunct checks the
decoration is faithful to the input list). -/
def RerankOutputOK (s : String → ℚ) (documents : List String) (top_k : Nat)
    (ds : List DocumentRank) : Prop :=
  ds.Pairwise (fun u v => v.relevance_score ≤ u.relevance_score) ∧
  ds.map DocumentRank.rank = List.range' 1 ds.length ∧
  (rerankPerm s documents top_k).Pairwise (fun a b => a.2.2 = b.2.2 → a.1 < b.1) ∧
  ∀ x ∈ rerankPerm s documents top_k, documents[x.1]? = some x.2.1 ∧ x.2.2 = s x.2.1

/-- Claim C1: for every query submitted to `Reranker.rerank`, the returned
documents list is sorted by non-increasing `relevance_score`, the `rank`
fields are exactly `1, 2, …, k` in list order, and ties keep the original
input order of the documents. -/
theorem reranker_sorted_ranked_stable (R : Reranker) (queries documents : List String)
    (top_k : Nat) :
    ∀ res ∈ R.rerank queries documents top_k, ∃ q ∈ queries,
      res.query = q ∧ res.documents = rerankOne (R.score q) documents top_k ∧
      RerankOutputOK (R.score q) documents top_k res.documents := by
  intro res hres
  rw [Reranker.rerank] at hres
  obtain ⟨q, hq, hEq⟩ := List.mem_map.mp hres
  refine ⟨q, hq, ?_, ?_, ?_⟩
  · rw [← hEq]
  · rw [← hEq]
  · rw [← hEq]
    exact ⟨rerankOne_score_sorted _ _ _, rerankOne_ranks _ _ _,
      rerankPerm_ties _ _ _, fun x hx => mem_rerankPerm hx⟩

/-- Concrete reranker for the witnesses: score a document by its length
(so `"aa"` and `"bb"` below are a genuine score tie). -/
def sampleScore : String → String → ℚ := fun _ d => (d.length : ℚ)

/-- Concrete reranker handle for the witnesses. -/
def sampleReranker : Reranker := { score := sampleScore }

/-- The result `rerank` produces for the C1 witness input. -/
def sampleRerankRes : RerankerResult :=
  { query := "q", documents := rerankOne (sampleScore "q") ["aa", "bb", "c"] 3 }

/-- Witness for C1 at a concrete input that contains a score tie. -/
theorem reranker_sorted_ranked_stable_witness :
    sampleRerankRes ∈ sampleReranker.rerank ["q"] ["aa", "bb", "c"] 3 ∧
    ∃ q ∈ ["q"], sampleRerankRes.query = q ∧
      sampleRerankRes.documents = rerankOne (sampleReranker.score q) ["aa", "bb", "c"] 3 ∧
      RerankOutputOK (sampleReranker.score q) ["aa", "bb", "c"] 3 sampleRerankRes.documents :=
  ⟨List.mem_singleton.mpr rfl,
   reranker_sorted_ranked_stable sampleReranker ["q"] ["aa", "bb", "c"] 3 sampleRerankRes
     (List.mem_singleton.mpr rfl)⟩

/-! ## Claim C7 -/

/-- Claim C7: `rerank` returns exactly one `RerankerResult` per query; each
result carries the corresponding input query verbatim in `query`; each
result contains exactly `min top_k documents.length` documents; and an
empty document list yields a result with zero documents rather than an
error. -/
theorem reranker_result_shape (R : Reranker) (queries documents : List String)
    (top_k : Nat) :
    (R.rerank queries documents top_k).length = queries.length ∧
    (∀ (i : Nat) (h1 : i < queries.length)
        (h2 : i < (R.rerank queries documents top_k).length),
      ((R.rerank queries documents top_k).get ⟨i, h2⟩).query = queries.get ⟨i, h1⟩ ∧
      ((R.rerank queries documents top_k).get ⟨i, h2⟩).documents.length
        = min top_k documents.length) ∧
    ∀ res ∈ R.rerank queries [] top_k, res.documents = [] := by
  refine ⟨by simp [Reranker.rerank], ?_, ?_⟩
  · intro i h1 h2
    rw [rerank_get R queries documents top_k i h1 h2]
    exact ⟨rfl, rerankOne_length _ _ _⟩
  · intro res hres
    rw [Reranker.rerank] at hres
    obtain ⟨q, _, hEq⟩ := List.mem_map.mp hres
    rw [← hEq]
    simp [rerankOne, rerankPerm, scoredDocs, assignRanks]

/-- Witness for C7 at a concrete input (two queries, three documents,
`top_k = 2`, checked at query index 1). -/
theorem reranker_result_shape_witness :
    ∃ hlen : 1 < (sampleReranker.rerank ["a", "b"] ["d", "e", "f"] 2).length,
      (sampleReranker.rerank ["a", "b"] ["d", "e", "f"] 2).length = 2 ∧
      ((sampleReranker.rerank ["a", "b"] ["d", "e", "f"] 2).get ⟨1, hlen⟩).query = "b" ∧
      ((sampleReranker.rerank ["a", "b"] ["d", "e", "f"] 2).get ⟨1, hlen⟩).documents.length
        = 2 := by
  have hlen : 1 < (sampleReranker.rerank ["a", "b"] ["d", "e", "f"] 2).length := by
    simp [Reranker.rerank]
  have h := (reranker_result_shape sampleReranker ["a", "b"] ["d", "e", "f"] 2).2.1 1
    (by decide) hlen
  have hl := (reranker_result_shape sampleReranker ["a", "b"] ["d", "e", "f"] 2).1
  exact ⟨hlen, by rw [hl]; rfl, h.1, by rw [h.2]; decide⟩

/-! ## Claim C3 -/

/-- Concrete file for the driver witnesses. -/
def sampleFile : FileRec :=
  { path := "/docs/a.txt", contents := "hi", created := "2024-01-01", modified := "2024-01-02" }

/-- Concrete two-dimensional embedder for the driver witnesses. -/
def sampleModel : EmbeddingModel := { dim := 2, encode := fun _ => [1, 0] }

/-- Claim C3: with an adapter (sink) supplied, `embed_file` and
`embed_directory` return nothing and route every unit to the sink
(flattening the upsert batches yields exactly the complete unit list, in
order); without an adapter they return the complete unit list — never a
partial in-memory result — and produce no sink batch. -/
theorem embed_sink_routing (fs : List FileRec) (E : EmbeddingModel)
    (cfg : TextEmbedConfig) (path dir : String) :
    (∀ r, embedFile fs E cfg true path = .ok r →
      r.1 = none ∧ ∃ f, findFile fs path = some f ∧ r.2.flatten = fileUnits E cfg f) ∧
    (∀ r, embedFile fs E cfg false path = .ok r →
      ∃ f, findFile fs path = some f ∧ r.1 = some (fileUnits E cfg f) ∧ r.2 = []) ∧
    (∀ r, embedDirectory fs E cfg true dir = .ok r →
      r.1 = none ∧ r.2.flatten = dirUnits fs E cfg dir) ∧
    (∀ r, embedDirectory fs E cfg false dir = .ok r →
      r.1 = some (dirUnits fs E cfg dir) ∧ r.2 = []) := by
  refine ⟨?_, ?_, ?_, ?_⟩
  · intro r h
    obtain ⟨f, hf, rfl⟩ := embedFile_ok_sink h
    exact ⟨rfl, f, hf, toBatches_flatten _ _⟩
  · intro r h
    obtain ⟨f, hf, rfl⟩ := embedFile_ok_no_sink h
    exact ⟨f, hf, rfl, rfl⟩
  · intro r h
    have h2 : (Except.ok (none, toBatches cfg.buffer_size (dirUnits fs E cfg dir)) :
        Except EmbedError (Option (List EmbedData) × List (List EmbedData))) = .ok r := h
    cases h2
    exact ⟨rfl, toBatches_flatten _ _⟩
  · intro r h
    have h2 : (Except.ok (some (dirUnits fs E cfg dir), []) :
        Except EmbedError (Option (List EmbedData) × List (List EmbedData))) = .ok r := h
    cases h2
    exact ⟨rfl, rfl⟩

/-- Witness for C3: a concrete no-sink call returns the complete unit list
and no sink batch. -/
theorem embed_sink_routing_witness :
    (embedFile [sampleFile] sampleModel {} false "/docs/a.txt"
      = .ok (some (fileUnits sampleModel {} sampleFile), [])) ∧
    ∃ f, findFile [sampleFile] "/docs/a.txt" = some f ∧
      (some (fileUnits sampleModel {} sampleFile), ([] : List (List EmbedData))).1
        = some (fileUnits sampleModel {} f) ∧
      (some (fileUnits sampleModel {} sampleFile), ([] : List (List EmbedData))).2
        = [] := by
  have hcall : embedFile [sampleFile] sampleModel {} false "/docs/a.txt"
      = .ok (some (fileUnits sampleModel {} sampleFile), []) := rfl
  exact ⟨hcall,
    (embed_sink_routing [sampleFile] sampleModel {} "/docs/a.txt" "/docs").2.1 _ hcall⟩

/-! ## Claim C5 -/

/-- Claim C5: `embed_file` fails with `FileNotFound` for every path that
does not exist, and with `UnsupportedExtension` for every existing file
whose extension no reader supports; in neither case does it return a
result list. -/
theorem embed_file_error_cases (fs : List FileRec) (E : EmbeddingModel)
    (cfg : TextEmbedConfig) (useSink : Bool) (path : String) :
    (findFile fs path = none →
      embedFile fs E cfg useSink path = .error (.FileNotFound path) ∧
      ∀ r, embedFile fs E cfg useSink path ≠ .ok r) ∧
    (∀ f, findFile fs path = some f → extensionOf path ∉ supportedExtensions →
      embedFile fs E cfg useSink path = .error (.UnsupportedExtension path) ∧
      ∀ r, embedFile fs E cfg useSink path ≠ .ok r) := by
  constructor
  · intro hn
    have he : embedFile fs E cfg useSink path = .error (.FileNotFound path) := by
      unfold embedFile
      rw [hn]
    exact ⟨he, fun r hr => by rw [he] at hr; cases hr⟩
  · intro f hf hext
    have he : embedFile fs E cfg useSink path = .error (.UnsupportedExtension path) := by
      unfold embedFile
      rw [hf]
      dsimp only
      rw [if_neg hext]
    exact ⟨he, fun r hr => by rw [he] at hr; cases hr⟩

/-- Concrete file with an extension no text reader supports. -/
def sampleMp3 : FileRec :=
  { path := "/docs/u.mp3", contents := "not text", created := "c", modified := "m" }

/-- Witness for C5: a nonexistent path raises `FileNotFound`; an existing
`.mp3` raises `UnsupportedExtension`. -/
theorem embed_file_error_cases_witness :
    (findFile [sampleFile, sampleMp3] "/docs/missing.txt" = none ∧
      embedFile [sampleFile, sampleMp3] sampleModel {} false "/docs/missing.txt"
        = .error (.FileNotFound "/docs/missing.txt") ∧
      ∀ r, embedFile [sampleFile, sampleMp3] sampleModel {} false "/docs/missing.txt"
        ≠ .ok r) ∧
    (findFile [sampleFile, sampleMp3] "/docs/u.mp3" = some sampleMp3 ∧
      extensionOf "/docs/u.mp3" ∉ supportedExtensions ∧
      embedFile [sampleFile, sampleMp3] sampleModel {} false "/docs/u.mp3"
        = .error (.UnsupportedExtension "/docs/u.mp3") ∧
      ∀ r, embedFile [sampleFile, sampleMp3] sampleModel {} false "/docs/u.mp3"
        ≠ .ok r) := by
  have h1 := (embed_file_error_cases [sampleFile, sampleMp3] sampleModel {} false
    "/docs/missing.txt").1 rfl
  have h2 := (embed_file_error_cases [sampleFile, sampleMp3] sampleModel {} false
    "/docs/u.mp3").2 sampleMp3 rfl (by decide)
  exact ⟨⟨rfl, h1.1, h1.2⟩, ⟨rfl, by decide, h2.1, h2.2⟩⟩

/-! ## Claim C6 -/

/-- Claim C6: every unit produced by `embed_file` carries metadata keys
`file_name` (the absolute path of the source file), `created` and
`modified`, and all units produced from the same file carry the same
`file_name` value. -/
theorem embed_file_metadata_keys (fs : List FileRec) (E : EmbeddingModel)
    (cfg : TextEmbedConfig) (path : String) (units : List EmbedData)
    (batches : List (List EmbedData))
    (h : embedFile fs E cfg false path = .ok (some units, batches)) :
    (∀ u ∈ units,
      (u.metadata.lookup "file_name").isSome ∧
      (u.metadata.lookup "created").isSome ∧
      (u.metadata.lookup "modified").isSome ∧
      ∃ f, findFile fs path = some f ∧ u.metadata.lookup "file_name" = some f.path) ∧
    ∀ u ∈ units, ∀ v ∈ units,
      u.metadata.lookup "file_name" = v.metadata.lookup "file_name" := by
  obtain ⟨f, hf, hr⟩ := embedFile_ok_no_sink h
  have hu : units = fileUnits E cfg f := by
    have h1 := congrArg Prod.fst hr
    simpa using h1
  subst hu
  constructor
  · intro u humem
    obtain ⟨m1, m2, m3⟩ := unitsFrom_metadata 0 _ u humem
    exact ⟨by rw [m1]; rfl, by rw [m2]; rfl, by rw [m3]; rfl, f, hf, m1⟩
  · intro u humem v hvmem
    have h1 := (unitsFrom_metadata 0 _ u humem).1
    have h2 := (unitsFrom_metadata 0 _ v hvmem).1
    rw [h1, h2]

/-- Witness for C6 at a concrete file. -/
theorem embed_file_metadata_keys_witness :
    (embedFile [sampleFile] sampleModel {} false "/docs/a.txt"
      = .ok (some (fileUnits sampleModel {} sampleFile), [])) ∧
    (∀ u ∈ fileUnits sampleModel {} sampleFile,
      (u.metadata.lookup "file_name").isSome ∧
      (u.metadata.lookup "created").isSome ∧
      (u.metadata.lookup "modified").isSome ∧
      ∃ f, findFile [sampleFile] "/docs/a.txt" = some f ∧
        u.metadata.lookup "file_name" = some f.path) ∧
    ∀ u ∈ fileUnits sampleModel {} sampleFile, ∀ v ∈ fileUnits sampleModel {} sampleFile,
      u.metadata.lookup "file_name" = v.metadata.lookup "file_name" := by
  have hcall : embedFile [sampleFile] sampleModel {} false "/docs/a.txt"
      = .ok (some (fileUnits sampleModel {} sampleFile), []) := rfl
  have h := embed_file_metadata_keys [sampleFile] sampleModel {} "/docs/a.txt"
    (fileUnits sampleModel {} sampleFile) [] hcall
  exact ⟨hcall, h.1, h.2⟩

/-! ## Claim C8 -/

/-- Claim C8: `embed_directory` applied to an empty directory (no file of
the file system lies under it) returns an empty list and raises no
error. -/
theorem embed_directory_empty (fs : List FileRec) (E : EmbeddingModel)
    (cfg : TextEmbedConfig) (dir : String)
    (h : ∀ f ∈ fs, (dir ++ "/").data.isPrefixOf f.path.data = false) :
    embedDirectory fs E cfg false dir = .ok (some [], []) := by
  have hd : dirFiles fs dir = [] := by
    rw [dirFiles, List.filter_eq_nil_iff]
    intro f hf hcontra
    rw [Bool.and_eq_true] at hcontra
    rw [h f hf] at hcontra
    exact Bool.false_ne_true hcontra.1
  show (Except.ok (some (dirUnits fs E cfg dir), []) :
      Except EmbedError (Option (List EmbedData) × List (List EmbedData)))
    = .ok (some [], [])
  rw [dirUnits, hd]
  rfl

/-- Witness for C8: a directory containing no files. -/
theorem embed_directory_empty_witness :
    (∀ f ∈ [sampleFile], ("/empty" ++ "/").data.isPrefixOf f.path.data = false) ∧
    embedDirectory [sampleFile] sampleModel {} false "/empty" = .ok (some [], []) :=
  ⟨by decide, embed_directory_empty [sampleFile] sampleModel {} "/empty" (by decide)⟩

/-! ## Claim C2 -/

theorem fileUnits_embedding {E : EmbeddingModel} {cfg : TextEmbedConfig} {f : FileRec}
    {u : EmbedData} (hu : u ∈ fileUnits E cfg f) : ∃ c, u.embedding = E.encode c := by
  obtain ⟨c, _, hc⟩ := unitsFrom_embedding 0 _ u hu
  exact ⟨c, hc⟩

/-- Claim C2: for a loaded embedder whose forward pass returns vectors of
`E.dim` entries (the §8.2 contract of the external model), every unit
produced by `embed_query`, `embed_file` (in-memory or routed to a sink) or
`embed_directory` has a dense embedding of length exactly `E.dim`,
regardless of input text, file or configuration. -/
theorem dimension_stability (E : EmbeddingModel)
    (hE : ∀ s, (E.encode s).length = E.dim) (fs : List FileRec)
    (cfg : TextEmbedConfig) (texts : List String) (path dir : String) :
    (∀ u ∈ embedQuery E texts, u.embedding.length = E.dim) ∧
    (∀ r, embedFile fs E cfg false path = .ok r →
      ∀ units, r.1 = some units → ∀ u ∈ units, u.embedding.length = E.dim) ∧
    (∀ r, embedFile fs E cfg true path = .ok r →
      ∀ b ∈ r.2, ∀ u ∈ b, u.embedding.length = E.dim) ∧
    (∀ r, embedDirectory fs E cfg false dir = .ok r →
      ∀ units, r.1 = some units → ∀ u ∈ units, u.embedding.length = E.dim) := by
  refine ⟨?_, ?_, ?_, ?_⟩
  · intro u hu
    obtain ⟨t, _, ht⟩ := List.mem_map.mp hu
    rw [← ht]
    exact hE t
  · intro r h units hunits u hu
    obtain ⟨f, _, rfl⟩ := embedFile_ok_no_sink h
    have : units = fileUnits E cfg f := by
      have h1 : some (fileUnits E cfg f) = some units := hunits
      exact (Option.some.inj h1).symm
    subst this
    obtain ⟨c, hc⟩ := fileUnits_embedding hu
    rw [hc]
    exact hE c
  · intro r h b hb u hu
    obtain ⟨f, _, rfl⟩ := embedFile_ok_sink h
    have hmem : u ∈ (toBatches cfg.buffer_size (fileUnits E cfg f)).flatten :=
      List.mem_flatten.mpr ⟨b, hb, hu⟩
    rw [toBatches_flatten] at hmem
    obtain ⟨c, hc⟩ := fileUnits_embedding hmem
    rw [hc]
    exact hE c
  · intro r h units hunits u hu
    have h2 : (Except.ok (some (dirUnits fs E cfg dir), []) :
        Except EmbedError (Option (List EmbedData) × List (List EmbedData))) = .ok r := h
    cases h2
    have : units = dirUnits fs E cfg dir := by
      have h1 : some (dirUnits fs E cfg dir) = some units := hunits
      exact (Option.some.inj h1).symm
    subst this
    obtain ⟨f, _, hf⟩ := List.mem_flatMap.mp hu
    obtain ⟨c, hc⟩ := fileUnits_embedding hf
    rw [hc]
    exact hE c

/-- Witness for C2 at a concrete embedder, query and file. -/
theorem dimension_stability_witness :
    (∀ s, (sampleModel.encode s).length = sampleModel.dim) ∧
    ({ embedding := [1, 0], text := "hello", metadata := [] } : EmbedData)
      ∈ embedQuery sampleModel ["hello"] ∧
    ({ embedding := [1, 0], text := "hello", metadata := [] } : EmbedData).embedding.length
      = sampleModel.dim :=
  ⟨fun _ => rfl, List.mem_singleton.mpr rfl,
   (dimension_stability sampleModel (fun _ => rfl) [sampleFile] {} ["hello"]
      "/docs/a.txt" "/docs").1 _ (List.mem_singleton.mpr rfl)⟩

/-! ## Claim C10 -/

/-- Claim C10: `embed_query` applied to a list containing the empty string
returns exactly one `EmbedData` for it, whose embedding is non-empty with
the full dimension of the embedder — an empty query text is not an error and
does not yield zero units, unlike an empty file, which yields zero
units. -/
theorem embed_query_empty_string (E : EmbeddingModel)
    (hE : ∀ s, (E.encode s).length = E.dim) (cfg : TextEmbedConfig) :
    (embedQuery E [""]).length = 1 ∧
    (∀ u ∈ embedQuery E [""],
      u.embedding.length = E.dim ∧ (0 < E.dim → u.embedding ≠ [])) ∧
    ∀ f : FileRec, f.contents = "" → fileUnits E cfg f = [] := by
  refine ⟨rfl, ?_, ?_⟩
  · intro u hu
    obtain ⟨t, _, ht⟩ := List.mem_map.mp hu
    rw [← ht]
    refine ⟨hE t, fun hdim hnil => ?_⟩
    have hnil2 : E.encode t = [] := hnil
    have hlen := hE t
    rw [hnil2] at hlen
    simp at hlen
    omega
  · intro f hf
    rw [fileUnits, hf]
    rfl

/-- Concrete empty-contents file for the C10 witness. -/
def sampleEmptyFile : FileRec :=
  { path := "/docs/empty.txt", contents := "", created := "c", modified := "m" }

/-- Witness for C10 at a concrete embedder and an empty-contents file. -/
theorem embed_query_empty_string_witness :
    (∀ s, (sampleModel.encode s).length = sampleModel.dim) ∧
    (embedQuery sampleModel [""]).length = 1 ∧
    ({ embedding := [1, 0], text := "", metadata := [] } : EmbedData)
      ∈ embedQuery sampleModel [""] ∧
    ({ embedding := [1, 0], text := "", metadata := [] } : EmbedData).embedding.length
      = sampleModel.dim ∧
    fileUnits sampleModel {} sampleEmptyFile = [] := by
  have h := embed_query_empty_string sampleModel (fun _ => rfl) {}
  refine ⟨fun _ => rfl, h.1, List.mem_singleton.mpr rfl, ?_, ?_⟩
  · exact (h.2.1 _ (List.mem_singleton.mpr rfl)).1
  · exact h.2.2 _ rfl

/-! ## Claim C4 -/

/-- Concrete embedding unit for the C4 counterexample and witness. -/
def sampleUnit : EmbedData :=
  { embedding := [1], text := "t", metadata := [("file_name", "dir/file.pdf")] }

/-- A concrete uuid4 draw stream with distinct values at states 0 and 1. -/
def sampleUuids : Nat → String := fun n => if n = 0 then "id0" else "id1"

/-- Claim C4 counterexample: `PineconeAdapter.convert` is not a pure
function of its input — `str(uuid.uuid4())` draws a fresh id per record, so
two successive invocations on the same unit list (the second starting at
the generator state the first left behind) return different records: the
`id` fields differ while everything else agrees. -/
theorem pinecone_convert_not_pure :
    (PineconeAdapter.convert sampleUuids 0 [sampleUnit]).1 ≠
      (PineconeAdapter.convert sampleUuids
        (PineconeAdapter.convert sampleUuids 0 [sampleUnit]).2 [sampleUnit]).1 := by
  decide

/-- Claim C4 amended: `PineconeAdapter.convert` is deterministic in
everything except the freshly drawn uuid `id` fields — for any two uuid
streams and generator states, the outputs have one record per input unit
and agree position by position on `values`, metadata `text` and metadata
`file`. -/
theorem pinecone_convert_deterministic_up_to_ids (u1 u2 : Nat → String)
    (k1 k2 : Nat) (es : List EmbedData) :
    (PineconeAdapter.convert u1 k1 es).1.length = es.length ∧
    ∀ (i : Nat) (h1 : i < (PineconeAdapter.convert u1 k1 es).1.length)
        (h2 : i < (PineconeAdapter.convert u2 k2 es).1.length),
      ((PineconeAdapter.convert u1 k1 es).1.get ⟨i, h1⟩).values
        = ((PineconeAdapter.convert u2 k2 es).1.get ⟨i, h2⟩).values ∧
      ((PineconeAdapter.convert u1 k1 es).1.get ⟨i, h1⟩).meta_text
        = ((PineconeAdapter.convert u2 k2 es).1.get ⟨i, h2⟩).meta_text ∧
      ((PineconeAdapter.convert u1 k1 es).1.get ⟨i, h1⟩).meta_file
        = ((PineconeAdapter.convert u2 k2 es).1.get ⟨i, h2⟩).meta_file := by
  induction es generalizing k1 k2 with
  | nil =>
    refine ⟨rfl, fun i h1 h2 => absurd h1 ?_⟩
    simp [PineconeAdapter.convert]
  | cons e es ih =>
    constructor
    · show (PineconeAdapter.convert u1 (k1+1) es).1.length + 1 = es.length + 1
      rw [(ih (k1+1) (k2+1)).1]
    · intro i h1 h2
      cases i with
      | zero => exact ⟨rfl, rfl, rfl⟩
      | succ i =>
        exact (ih (k1+1) (k2+1)).2 i (Nat.lt_of_succ_lt_succ h1)
          (Nat.lt_of_succ_lt_succ h2)

/-- Witness for the amended C4 at a concrete unit and two different
generator states. -/
theorem pinecone_convert_deterministic_up_to_ids_witness :
    ∃ h1 : 0 < (PineconeAdapter.convert sampleUuids 0 [sampleUnit]).1.length,
    ∃ h2 : 0 < (PineconeAdapter.convert sampleUuids 1 [sampleUnit]).1.length,
      ((PineconeAdapter.convert sampleUuids 0 [sampleUnit]).1.get ⟨0, h1⟩).values
        = ((PineconeAdapter.convert sampleUuids 1 [sampleUnit]).1.get ⟨0, h2⟩).values ∧
      ((PineconeAdapter.convert sampleUuids 0 [sampleUnit]).1.get ⟨0, h1⟩).meta_text
        = ((PineconeAdapter.convert sampleUuids 1 [sampleUnit]).1.get ⟨0, h2⟩).meta_text ∧
      ((PineconeAdapter.convert sampleUuids 0 [sampleUnit]).1.get ⟨0, h1⟩).meta_file
        = ((PineconeAdapter.convert sampleUuids 1 [sampleUnit]).1.get ⟨0, h2⟩).meta_file := by
  have h1 : 0 < (PineconeAdapter.convert sampleUuids 0 [sampleUnit]).1.length := by decide
  have h2 : 0 < (PineconeAdapter.convert sampleUuids 1 [sampleUnit]).1.length := by decide
  exact ⟨h1, h2, (pinecone_convert_deterministic_up_to_ids sampleUuids sampleUuids
    0 1 [sampleUnit]).2 0 h1 h2⟩

/-! ## Claim C9 -/

/-- Claim C9: `PineconeAdapter.upsert` raises
`ValueError("Index must be created before upserting data")` whenever
`create_index` has not previously been called on that adapter instance
(`index_name` still `None`), and in that case performs no remote upsert
call, leaving the external store unchanged. -/
theorem pinecone_upsert_requires_index (a : PineconeAdapter)
    (data : List PineconeRecord) (h : a.index_name = none) :
    (a.upsert data).2 = some "Index must be created before upserting data" ∧
    (a.upsert data).1.remote = a.remote := by
  rw [PineconeAdapter.upsert, h]
  exact ⟨rfl, rfl⟩

/-- Witness for C9: a freshly initialised adapter refuses to upsert and
makes no remote call. -/
theorem pinecone_upsert_requires_index_witness :
    (PineconeAdapter.init "key").index_name = none ∧
    ((PineconeAdapter.init "key").upsert []).2
      = some "Index must be created before upserting data" ∧
    ((PineconeAdapter.init "key").upsert []).1.remote
      = (PineconeAdapter.init "key").remote := by
  have h := pinecone_upsert_requires_index (PineconeAdapter.init "key") [] rfl
  exact ⟨rfl, h.1, h.2⟩
